import Mathlib

/-!
Verification of the imgdir2pdf utility (src/imgdir2pdf.go).

Go strings are byte sequences; we model them as `List Nat` with each
element a byte value (< 256 for genuine inputs).  Concrete ASCII inputs
are written with `bs`.  Go `float64` page arithmetic is modelled with
exact rationals `ℚ`, following the spec, which states all sizes as
positive reals.
-/

/-- Byte string of an ASCII Lean string literal (for concrete inputs). -/
def bs (s : String) : List Nat :=
  s.toList.map Char.toNat

/-- Go byte-wise string comparison `<` (lexicographic on bytes). -/
def lexLt : List Nat → List Nat → Bool
  | [], [] => false
  | [], _ :: _ => true
  | _ :: _, [] => false
  | a :: as, b :: b82 =>
    if a < b then true
    else if b < a then false
    else lexLt as b82

/-- Translation of `optimalPageSize` (src/imgdir2pdf.go:137-141):
`scaler := templateW / givenW; w, h = templateW, scaler*givenH`. -/
def optimalPageSize (templateW templateH givenW givenH : ℚ) : ℚ × ℚ :=
  let scaler := templateW / givenW
  (templateW, scaler * givenH)

/-- C1, claim as stated (spec formula `pageH = templateH × (templateW / imageW)`)
is false on the code at template (210,297), image (100,200): the code returns
height 420, the formula gives 623.7. -/
theorem optimalPageSize_spec_formula_cex :
    (optimalPageSize 210 297 100 200).2 ≠ 297 * (210 / 100) := by
  norm_num [optimalPageSize]

/-- C1 amended: for positive sizes, `pageW = templateW` and
`pageH = imageH × (templateW / imageW)` (the code scales the image height,
not the template height). -/
theorem optimalPageSize_eq (templateW templateH givenW givenH : ℚ)
    (htw : 0 < templateW) (hth : 0 < templateH)
    (hgw : 0 < givenW) (hgh : 0 < givenH) :
    optimalPageSize templateW templateH givenW givenH
      = (templateW, givenH * (templateW / givenW)) := by
  simp [optimalPageSize, mul_comm]

/-- Witness for C1 amended at template (210,297), image (100,200). -/
theorem optimalPageSize_eq_witness :
    optimalPageSize 210 297 100 200 = (210, 200 * (210 / 100)) :=
  optimalPageSize_eq 210 297 100 200 (by norm_num) (by norm_num)
    (by norm_num) (by norm_num)

/-- C2, claim as stated is false on the code: at template (210,297),
image (100,200) the code returns (210, 420), not (210, 623.7). -/
theorem optimalPageSize_examples_cex :
    optimalPageSize 210 297 100 200 ≠ (210, 6237 / 10) := by
  simp [optimalPageSize]
  norm_num

/-- C2 amended: at template (210,297) the code returns (210, 420) on image
(100,200) and (210, 105) on image (200,100). -/
theorem optimalPageSize_examples :
    optimalPageSize 210 297 100 200 = (210, 420)
      ∧ optimalPageSize 210 297 200 100 = (210, 105) := by
  constructor <;> (simp [optimalPageSize]; norm_num)

/-- C3: for positive sizes the fitted page preserves the image aspect ratio:
`pageH / pageW = imageH / imageW`. -/
theorem optimalPageSize_aspect (templateW templateH givenW givenH : ℚ)
    (htw : 0 < templateW) (hth : 0 < templateH)
    (hgw : 0 < givenW) (hgh : 0 < givenH) :
    (optimalPageSize templateW templateH givenW givenH).2
        / (optimalPageSize templateW templateH givenW givenH).1
      = givenH / givenW := by
  simp only [optimalPageSize]
  field_simp
  ring

/-- Witness for C3 at template (210,297), image (100,200). -/
theorem optimalPageSize_aspect_witness :
    (optimalPageSize 210 297 100 200).2 / (optimalPageSize 210 297 100 200).1
      = 200 / 100 :=
  optimalPageSize_aspect 210 297 100 200 (by norm_num) (by norm_num)
    (by norm_num) (by norm_num)

/-- A byte is an ASCII decimal digit (Go: `'0' <= b && b <= '9'`). -/
def isDigitB (b : Nat) : Bool :=
  48 ≤ b && b ≤ 57

/-- Helper for `goExt`: scan the reversed byte string for the last dot of
the final path element, stopping at a path separator (byte 47), as Go
`filepath.Ext` does.  Returns the reversed extension, dot included. -/
def extRevAux : List Nat → Option (List Nat)
  | [] => none
  | b :: rest =>
    if b = 47 then none
    else if b = 46 then some [46]
    else (extRevAux rest).map (fun e => b :: e)

/-- Translation of Go `filepath.Ext`: the suffix beginning at the final dot
of the final path element, empty when there is no dot. -/
def goExt (p : List Nat) : List Nat :=
  ((extRevAux p.reverse).getD []).reverse

/-- Go `name := filename[:len(filename)-len(ext)]` (src/imgdir2pdf.go:81). -/
def stem (filename : List Nat) : List Nat :=
  filename.take (filename.length - (goExt filename).length)

/-- The maximal trailing ASCII-digit run of the stem: the Go loop at
src/imgdir2pdf.go:83-89 scans `name` from the end while digits, and
`s64 := name[i:]`. -/
def digitRun (filename : List Nat) : List Nat :=
  ((stem filename).reverse.takeWhile isDigitB).reverse

/-- The stem's part before the trailing digit run: `name[:i]`. -/
def runPre (filename : List Nat) : List Nat :=
  ((stem filename).reverse.dropWhile isDigitB).reverse

/-- Decimal value of a digit-byte string. -/
def digitsVal (s : List Nat) : Nat :=
  s.foldl (fun a b => a * 10 + (b - 48)) 0

/-- Translation of `strconv.ParseUint(s, 10, 64)` on the strings the code
passes it: succeeds exactly on a nonempty all-digit string whose value
fits in 64 bits. -/
def parseUint64 (s : List Nat) : Option Nat :=
  if s.isEmpty then none
  else if s.all isDigitB then
    if digitsVal s < 2 ^ 64 then some (digitsVal s) else none
  else none

/-- `beBytes w k` is the `w`-byte big-endian encoding of `k` (for
`k < 256 ^ w`); `binary.BigEndian.PutUint64` is `beBytes 8`. -/
def beBytes : Nat → Nat → List Nat
  | 0, _ => []
  | w + 1, k => k / 256 ^ w :: beBytes w (k % 256 ^ w)

/-- Translation of `sortName` (src/imgdir2pdf.go:79-102).  `b64` starts as
8 zero bytes and is overwritten with `PutUint64(b64, u64+1)` only when the
digit run is nonempty and `ParseUint` succeeded; Go `uint64` addition
wraps, hence the `% 2 ^ 64`. -/
def sortName (filename : List Nat) : List Nat :=
  let b64 :=
    if (digitRun filename).isEmpty then List.replicate 8 0
    else
      match parseUint64 (digitRun filename) with
      | some u => beBytes 8 ((u + 1) % 2 ^ 64)
      | none => List.replicate 8 0
  runPre filename ++ b64 ++ goExt filename

/-- The sort key exactly as the spec's §4.2 words state it: whenever the
digit run is non-empty its value plus one is encoded, with no provision
for values that do not fit in the fixed width. -/
def specSortKey (filename : List Nat) : List Nat :=
  let b64 :=
    if (digitRun filename).isEmpty then List.replicate 8 0
    else beBytes 8 ((digitsVal (digitRun filename) + 1) % 2 ^ 64)
  runPre filename ++ b64 ++ goExt filename

/-- The key as the amended C5 states it: value plus one is encoded only
when the run parses as a 64-bit unsigned integer; otherwise (run absent,
or value at least 2^64) the all-zero sentinel. -/
def amendedSortKey (filename : List Nat) : List Nat :=
  let run := digitRun filename
  let b64 :=
    if !run.isEmpty && digitsVal run < 2 ^ 64 then
      beBytes 8 ((digitsVal run + 1) % 2 ^ 64)
    else List.replicate 8 0
  runPre filename ++ b64 ++ goExt filename

theorem digitRun_all (f : List Nat) : (digitRun f).all isDigitB = true := by
  simp only [digitRun, List.all_eq_true, List.mem_reverse]
  exact fun a ha => List.mem_takeWhile_imp ha

/-- C5, claim as stated, fails at `a18446744073709551616.png`: the digit
run's value is 2^64, `ParseUint` fails, and the code keeps the all-zero
sentinel, while the spec formula encodes value + 1. -/
theorem sortName_spec_formula_cex :
    sortName (bs "a18446744073709551616.png")
      ≠ specSortKey (bs "a18446744073709551616.png") := by
  decide

/-- C5 amended: for every filename the key is (stem prefix before the
maximal trailing digit run) ++ (big-endian 8-byte encoding of value+1 mod
2^64 when the run is non-empty and its value is below 2^64, the all-zero
sentinel otherwise) ++ (the original extension). -/
theorem sortName_eq_amendedSortKey (f : List Nat) :
    sortName f = amendedSortKey f := by
  have hall := digitRun_all f
  by_cases h : (digitRun f).isEmpty
  · simp [sortName, amendedSortKey, h]
  · have h3 : parseUint64 (digitRun f)
        = if digitsVal (digitRun f) < 18446744073709551616 then
            some (digitsVal (digitRun f))
          else none := by
      simp [parseUint64, h, hall]
    by_cases h2 : digitsVal (digitRun f) < 18446744073709551616
    · simp [sortName, amendedSortKey, h, h2, h3]
    · simp [sortName, amendedSortKey, h, h2, h3]

/-- Insertion step for sorting with a strict Bool comparator. -/
def insertLt (lt : List Nat → List Nat → Bool) (a : List Nat) :
    List (List Nat) → List (List Nat)
  | [] => [a]
  | x :: xs => if lt a x then a :: x :: xs else x :: insertLt lt a xs

/-- Insertion sort with a strict Bool comparator; models `sort.Slice`
(src/imgdir2pdf.go:60-65): the keys of distinct relevant inputs are
distinct, so any comparison sort yields this order. -/
def isortLt (lt : List Nat → List Nat → Bool) :
    List (List Nat) → List (List Nat)
  | [] => []
  | x :: xs => insertLt lt x (isortLt lt xs)

/-- The comparator of src/imgdir2pdf.go:62-64:
`sortName(result[i]) < sortName(result[j])`. -/
def sortNameLt (a b : List Nat) : Bool :=
  lexLt (sortName a) (sortName b)

/-- C6: sorting the six example filenames by byte-wise comparison of their
natural-sort keys yields the order the spec demands. -/
theorem natural_sort_example :
    isortLt sortNameLt
        [bs "amt100.png", bs "amt2.png", bs "amt.png", bs "amt0.png",
         bs "amt10.png", bs "amt099.png"]
      = [bs "amt.png", bs "amt0.png", bs "amt2.png", bs "amt10.png",
         bs "amt099.png", bs "amt100.png"] := by
  decide

/-- Translation of Go `strings.HasSuffix`:
`len(s) >= len(suffix) && s[len(s)-len(suffix):] == suffix`. -/
def hasSuffix (s sfx : List Nat) : Bool :=
  if sfx.length ≤ s.length then
    s.drop (s.length - sfx.length) == sfx
  else false

/-- Translation of `any` (src/imgdir2pdf.go:37-44): whether some element of
`other` satisfies `f` with `target`. -/
def anyOf (target : List Nat) (other : List (List Nat))
    (f : List Nat → List Nat → Bool) : Bool :=
  match other with
  | [] => false
  | e :: rest => if f target e then true else anyOf target rest f

/-- `imageFormats` (src/imgdir2pdf.go:27): the suffixes carry no dot. -/
def imageFormats : List (List Nat) :=
  [bs "png", bs "jpg", bs "jpeg", bs "gif"]

/-- A directory entry as seen by `lsdir`: a name and an is-directory flag. -/
structure DirEntry where
  name : List Nat
  isDir : Bool

/-- The `lsdir` filter condition (src/imgdir2pdf.go:56):
`!elem.IsDir() && any(curfile, fileExtension, strings.HasSuffix)`. -/
def lsdirKeeps (e : DirEntry) : Bool :=
  !e.isDir && anyOf e.name imageFormats hasSuffix

/-- The filter-then-sort stage of `lsdir` (src/imgdir2pdf.go:48-65), on the
plain names before they are made absolute. -/
def lsdirNames (entries : List DirEntry) : List (List Nat) :=
  isortLt sortNameLt ((entries.filter lsdirKeeps).map DirEntry.name)

/-- The suffix condition as C4 states it: the name ends with one of the
literal strings ".png", ".jpg", ".jpeg", ".gif". -/
def dotSuffixMatch (n : List Nat) : Bool :=
  hasSuffix n (bs ".png") || hasSuffix n (bs ".jpg")
    || hasSuffix n (bs ".jpeg") || hasSuffix n (bs ".gif")

/-- C4, claim as stated, fails at the regular file `xpng`: the code's
filter keeps it (the configured suffixes carry no dot), yet it does not
end with any of ".png", ".jpg", ".jpeg", ".gif". -/
theorem lsdir_dot_suffix_cex :
    lsdirKeeps ⟨bs "xpng", false⟩ = true
      ∧ dotSuffixMatch (bs "xpng") = false := by
  decide

/-- C4 amended: a regular file is kept iff its name ends with one of the
literal strings "png", "jpg", "jpeg", "gif" (no dot); the spec's example
directory still yields exactly [a.png, c.jpeg]. -/
theorem lsdir_filter_eq :
    (∀ n : List Nat,
        lsdirKeeps ⟨n, false⟩
          = (hasSuffix n (bs "png") || hasSuffix n (bs "jpg")
              || hasSuffix n (bs "jpeg") || hasSuffix n (bs "gif")))
      ∧ lsdirNames
          [⟨bs "a.png", false⟩, ⟨bs "b.txt", false⟩,
           ⟨bs "c.jpeg", false⟩, ⟨bs "d", false⟩]
        = [bs "a.png", bs "c.jpeg"] := by
  constructor
  · intro n
    simp [lsdirKeeps, anyOf, imageFormats]
    by_cases h1 : hasSuffix n (bs "png") <;>
      by_cases h2 : hasSuffix n (bs "jpg") <;>
        by_cases h3 : hasSuffix n (bs "jpeg") <;>
          by_cases h4 : hasSuffix n (bs "gif") <;>
            simp [h1, h2, h3, h4]
  · decide

/-- A page of the assembled document: the image path it was added from and
its page size (src/imgdir2pdf.go:121-127 adds one page per image, placing
the image over the whole page). -/
structure Page where
  path : List Nat
  wd : ℚ
  ht : ℚ
deriving DecidableEq

/-- The accumulating document: the default size given to `NewCustom`
(src/imgdir2pdf.go:130-132) and the pages added so far, in order. -/
structure Document where
  defaultW : ℚ
  defaultH : ℚ
  pages : List Page
deriving DecidableEq

/-- Failure of a run, modelling the panics of src/imgdir2pdf.go. -/
inductive RunErr where
  | emptyInput
deriving DecidableEq

/-- Translation of `addImagePage` (src/imgdir2pdf.go:121-127); the image
dimension probe `getImageSize` is the oracle `dims`, giving each path's
(width, height). -/
def addImagePage (dims : List Nat → ℚ × ℚ) (doc : Document)
    (imagepath : List Nat) : Document :=
  let wh := dims imagepath
  let res := optimalPageSize 210 297 wh.1 wh.2
  { doc with pages := doc.pages ++ [⟨imagepath, res.1, res.2⟩] }

/-- Translation of `processImages` (src/imgdir2pdf.go:144-157): panic on an
empty path list, otherwise create the document sized to the first image's
fitted page and add one page per path, in order. -/
def processImages (dims : List Nat → ℚ × ℚ) (paths : List (List Nat)) :
    Except RunErr Document :=
  match paths with
  | [] => .error .emptyInput
  | p0 :: _ =>
    let wh := dims p0
    let first := optimalPageSize 210 297 wh.1 wh.2
    .ok (paths.foldl (addImagePage dims) ⟨first.1, first.2, []⟩)

/-- The output file a run produces: `saveAs` on success, nothing when
`processImages` fails before `OutputFileAndClose`. -/
def writtenFile (dims : List Nat → ℚ × ℚ) (paths : List (List Nat))
    (saveAs : List Nat) : Option (List Nat) :=
  match processImages dims paths with
  | .ok _ => some saveAs
  | .error _ => none

/-- C7: on an empty filtered file list the run fails with the empty-input
error before any document is created, and produces no output file. -/
theorem processImages_empty (dims : List Nat → ℚ × ℚ) (saveAs : List Nat) :
    processImages dims [] = .error .emptyInput
      ∧ writtenFile dims [] saveAs = none := by
  constructor <;> rfl

theorem foldl_addImagePage (dims : List Nat → ℚ × ℚ)
    (paths : List (List Nat)) (doc : Document) :
    (paths.foldl (addImagePage dims) doc).pages
      = doc.pages ++ paths.map (fun p =>
          let wh := dims p
          let res := optimalPageSize 210 297 wh.1 wh.2
          (⟨p, res.1, res.2⟩ : Page)) := by
  induction paths generalizing doc with
  | nil => simp
  | cons p ps ih =>
    simp [List.foldl_cons, ih, addImagePage]

/-- The absolute form of `dirpath/name` for an absolute clean `dirpath`
(src/imgdir2pdf.go:67, `filepath.Abs(filepath.Join(dirpath, elem))`,
modelled for a `dirpath` on which `Abs` and `Clean` are the identity). -/
def joinName (dirpath n : List Nat) : List Nat :=
  dirpath ++ 47 :: n

/-- `lsdir` (src/imgdir2pdf.go:48-73) for an absolute clean `dirpath`:
filter the directory entries, sort by the natural key, make absolute. -/
def lsdir (dirpath : List Nat) (entries : List DirEntry) :
    List (List Nat) :=
  (lsdirNames entries).map (joinName dirpath)

theorem processImages_pages (dims : List Nat → ℚ × ℚ)
    (paths : List (List Nat)) (h : paths ≠ []) :
    ∃ doc, processImages dims paths = .ok doc
      ∧ doc.pages.map Page.path = paths
      ∧ doc.pages.length = paths.length := by
  match paths with
  | [] => exact absurd rfl h
  | p0 :: ps =>
    refine ⟨_, rfl, ?_, ?_⟩
    · rw [foldl_addImagePage]
      simp [Function.comp_def]
    · rw [foldl_addImagePage]
      simp

/-- C9: for every completed run, the pages of the document are exactly one
per file of the scanned directory, in the natural-sort order `lsdir`
produced. -/
theorem pages_follow_sorted_names (dims : List Nat → ℚ × ℚ)
    (dirpath : List Nat) (entries : List DirEntry)
    (h : lsdir dirpath entries ≠ []) :
    ∃ doc, processImages dims (lsdir dirpath entries) = .ok doc
      ∧ doc.pages.map Page.path = lsdir dirpath entries
      ∧ doc.pages.length = (lsdir dirpath entries).length :=
  processImages_pages dims (lsdir dirpath entries) h

/-- Witness for C9 on a two-file directory. -/
theorem pages_follow_sorted_names_witness :
    ∃ doc,
      processImages (fun _ => (100, 200))
          (lsdir (bs "/d")
            [⟨bs "b.png", false⟩, ⟨bs "a.png", false⟩, ⟨bs "n.txt", false⟩])
        = .ok doc
      ∧ doc.pages.map Page.path
          = lsdir (bs "/d")
              [⟨bs "b.png", false⟩, ⟨bs "a.png", false⟩, ⟨bs "n.txt", false⟩]
      ∧ doc.pages.length
          = (lsdir (bs "/d")
              [⟨bs "b.png", false⟩, ⟨bs "a.png", false⟩,
               ⟨bs "n.txt", false⟩]).length :=
  pages_follow_sorted_names (fun _ => (100, 200)) (bs "/d")
    [⟨bs "b.png", false⟩, ⟨bs "a.png", false⟩, ⟨bs "n.txt", false⟩]
    (by decide)

/-- Translation of Go `filepath.Base` on slash paths: "." for the empty
path, else strip trailing slashes; "/" when nothing remains, else
everything after the last slash. -/
def goBase (p : List Nat) : List Nat :=
  if p.isEmpty then [46]
  else
    let q := (p.reverse.dropWhile (fun b => b == 47)).reverse
    if q.isEmpty then [47]
    else (q.reverse.takeWhile (fun b => b != 47)).reverse

/-- Go `filepath.Join(a, b)` for a clean absolute directory `a` and a
clean slash-free `b`, on which `Clean` rewrites nothing. -/
def joinSimple (a b : List Nat) : List Nat :=
  if a = [47] then a ++ b else a ++ 47 :: b

/-- Translation of `getOutFilename` (src/imgdir2pdf.go:162-169) for an
input already in absolute clean form, on which `filepath.Abs` is the
identity: `filepath.Join(resultPath, basename + ".pdf")`. -/
def getOutFilename (resultPath : List Nat) : List Nat :=
  joinSimple resultPath (goBase resultPath ++ bs ".pdf")

/-- The absolute path `/c1/c2/.../cn` with the given components. -/
def mkAbsPath (comps : List (List Nat)) : List Nat :=
  comps.foldl (fun acc c => acc ++ 47 :: c) []


theorem goBase_concat (A lastc : List Nat)
    (hne : lastc ≠ []) (h47 : (47 : Nat) ∉ lastc) :
    goBase (A ++ 47 :: lastc) = lastc := by
  obtain ⟨d, ds, hx⟩ : ∃ d ds, lastc.reverse = d :: ds := by
    match hx : lastc.reverse with
    | [] => exact absurd (by simpa using hx) hne
    | d :: ds => exact ⟨d, ds, rfl⟩
  have hd : d ∈ lastc := by
    rw [← List.mem_reverse, hx]
    exact List.mem_cons_self d ds
  have hd47 : (d == 47) = false :=
    beq_eq_false_iff_ne.2 (fun he => h47 (he ▸ hd))
  have hall : ∀ x ∈ lastc.reverse, (x != 47) = true := by
    intro x hxm
    exact bne_iff_ne.2 (fun he => h47 (he ▸ List.mem_reverse.1 hxm))
  have hrev : (A ++ 47 :: lastc).reverse
      = lastc.reverse ++ 47 :: A.reverse := by
    simp
  have hdrop : List.dropWhile (fun b => b == 47) (A ++ 47 :: lastc).reverse
      = (A ++ 47 :: lastc).reverse := by
    rw [hrev, hx, List.cons_append, List.dropWhile_cons, hd47]
    simp
  have htake : List.takeWhile (fun b => b != 47) (A ++ 47 :: lastc).reverse
      = lastc.reverse := by
    rw [hrev, List.takeWhile_append_of_pos hall, List.takeWhile_cons]
    simp
  have hpne : (A ++ 47 :: lastc).isEmpty = false := by
    cases A <;> simp [List.isEmpty]
  simp only [goBase, hpne, Bool.false_eq_true, if_false, hdrop,
    List.reverse_reverse, htake]

/-- C8: for every directory whose absolute form is `/c1/.../cn` with
nonempty slash-free components, the output path is that absolute form,
a slash, the last component, and  ".pdf". -/
theorem getOutFilename_eq (comps : List (List Nat)) (h : comps ≠ [])
    (hc : ∀ c ∈ comps, c ≠ [] ∧ (47 : Nat) ∉ c) :
    getOutFilename (mkAbsPath comps)
      = mkAbsPath comps ++ 47 :: (comps.getLast h ++ bs ".pdf") := by
  obtain ⟨ini, lastc, rfl⟩ : ∃ ini lastc, comps = ini ++ [lastc] := by
    rcases (List.eq_nil_or_concat comps).resolve_left h with ⟨L, b, hcomps⟩
    exact ⟨L, b, by simpa using hcomps⟩
  have hm : mkAbsPath (ini ++ [lastc]) = mkAbsPath ini ++ 47 :: lastc := by
    simp [mkAbsPath]
  have hlast : (ini ++ [lastc]).getLast h = lastc := by
    simp
  have hcl := hc lastc (by simp)
  have hbase : goBase (mkAbsPath ini ++ 47 :: lastc) = lastc :=
    goBase_concat _ _ hcl.1 hcl.2
  have hnej : mkAbsPath ini ++ 47 :: lastc ≠ [47] := by
    intro he
    have hlen : (mkAbsPath ini ++ 47 :: lastc).length
        = ([47] : List Nat).length := by
      rw [he]
    simp [List.length_append] at hlen
    exact hcl.1 (List.length_eq_zero.mp (by omega))
  rw [hm, hlast, getOutFilename, hbase, joinSimple, if_neg hnej]

/-- Witness for C8: the directory resolving to /x/y/photos yields the
output path /x/y/photos/photos.pdf. -/
theorem getOutFilename_eq_witness :
    getOutFilename (mkAbsPath [bs "x", bs "y", bs "photos"])
        = mkAbsPath [bs "x", bs "y", bs "photos"]
          ++ 47 :: (([bs "x", bs "y", bs "photos"].getLast
              (by decide)) ++ bs ".pdf")
      ∧ getOutFilename (bs "/x/y/photos") = bs "/x/y/photos/photos.pdf" :=
  ⟨getOutFilename_eq [bs "x", bs "y", bs "photos"] (by decide) (by decide),
   by decide⟩

theorem lexLt_append_same (P u v : List Nat) :
    lexLt (P ++ u) (P ++ v) = lexLt u v := by
  induction P with
  | nil => rfl
  | cons a as ih => simp [lexLt, ih]

theorem lexLt_zeros_beBytes (w k : Nat) (x y : List Nat)
    (hk : 0 < k) (hw : k < 256 ^ w) :
    lexLt (List.replicate w 0 ++ x) (beBytes w k ++ y) = true := by
  induction w generalizing k with
  | zero =>
    simp at hw
    omega
  | succ w ih =>
    simp only [List.replicate_succ, beBytes, List.cons_append]
    by_cases h : k / 256 ^ w = 0
    · have hlt : k < 256 ^ w :=
        (Nat.div_eq_zero_iff (Nat.pos_pow_of_pos w (by norm_num))).mp h
      have hmod : k % 256 ^ w = k := Nat.mod_eq_of_lt hlt
      simp only [lexLt, h, Nat.lt_irrefl, if_false, hmod]
      exact ih k hk hlt
    · simp [lexLt, Nat.pos_of_ne_zero h]

theorem sortName_none (f : List Nat) (hf : digitRun f ≠ [])
    (hbig : 2 ^ 64 ≤ digitsVal (digitRun f)) :
    sortName f = runPre f ++ List.replicate 8 0 ++ goExt f := by
  have hall := digitRun_all f
  norm_num at hbig
  have hemp : (digitRun f).isEmpty = false := by
    simpa [List.isEmpty_iff] using hf
  have hp : parseUint64 (digitRun f) = none := by
    simp [parseUint64, hemp, hall, Nat.not_lt.mpr hbig]
  simp [sortName, hemp, hp]

theorem sortName_some (g : List Nat) (hg : digitRun g ≠ [])
    (hsmall : digitsVal (digitRun g) < 2 ^ 64 - 1) :
    sortName g
      = runPre g ++ beBytes 8 (digitsVal (digitRun g) + 1) ++ goExt g := by
  have hall := digitRun_all g
  norm_num at hsmall
  have hemp : (digitRun g).isEmpty = false := by
    simpa [List.isEmpty_iff] using hg
  have hlt : digitsVal (digitRun g) < 18446744073709551616 := by omega
  have hp : parseUint64 (digitRun g) = some (digitsVal (digitRun g)) := by
    simp [parseUint64, hemp, hall, hlt]
  have hmod : (digitsVal (digitRun g) + 1) % 18446744073709551616
      = digitsVal (digitRun g) + 1 := Nat.mod_eq_of_lt (by omega)
  simp [sortName, hemp, hp, hmod]

/-- C10 amended: a digit run whose value is at least 2^64 fails ParseUint,
so the key keeps the all-zero sentinel and the name sorts as if it had no
numeric suffix — strictly before every name with the same prefix whose
parseable suffix value is below 2^64 - 1.  (A suffix of exactly 2^64 - 1
parses, but its value + 1 wraps to the very same sentinel.) -/
theorem sortName_overflow_sentinel (f g : List Nat)
    (hf : digitRun f ≠ [])
    (hbig : 2 ^ 64 ≤ digitsVal (digitRun f)) :
    sortName f = runPre f ++ List.replicate 8 0 ++ goExt f
      ∧ (runPre g = runPre f → digitRun g ≠ [] →
          digitsVal (digitRun g) < 2 ^ 64 - 1 →
          lexLt (sortName f) (sortName g) = true) := by
  refine ⟨sortName_none f hf hbig, fun hpre hg hsm => ?_⟩
  rw [sortName_none f hf hbig, sortName_some g hg hsm, hpre]
  simp only [List.append_assoc]
  rw [lexLt_append_same]
  apply lexLt_zeros_beBytes
  · omega
  · have h256 : (256 : Nat) ^ 8 = 2 ^ 64 := by norm_num
    rw [h256]
    norm_num at hsm ⊢
    omega

/-- C10, as stated, is false: `b18446744073709551616.png` (suffix value
2^64) gets the sentinel key, but so does `b18446744073709551615.png`,
whose suffix parses as 2^64 - 1 and wraps to zero on the +1; the keys are
equal, so the former does not sort before this parseable-suffix name. -/
theorem sortName_overflow_cex :
    parseUint64 (digitRun (bs "b18446744073709551615.png"))
        = some (2 ^ 64 - 1)
      ∧ 2 ^ 64 ≤ digitsVal (digitRun (bs "b18446744073709551616.png"))
      ∧ runPre (bs "b18446744073709551616.png")
          = runPre (bs "b18446744073709551615.png")
      ∧ lexLt (sortName (bs "b18446744073709551616.png"))
          (sortName (bs "b18446744073709551615.png")) = false := by
  decide

/-- Witness for C10 amended: `c18446744073709551616.png` keeps the
sentinel key and sorts before `c5.png`. -/
theorem sortName_overflow_sentinel_witness :
    sortName (bs "c18446744073709551616.png")
        = runPre (bs "c18446744073709551616.png") ++ List.replicate 8 0
          ++ goExt (bs "c18446744073709551616.png")
      ∧ lexLt (sortName (bs "c18446744073709551616.png"))
          (sortName (bs "c5.png")) = true := by
  have h := sortName_overflow_sentinel (bs "c18446744073709551616.png")
      (bs "c5.png") (by decide) (by decide)
  exact ⟨h.1, h.2 (by decide) (by decide) (by decide)⟩
